import Mathlib

/-!
# Verification of the erez-monitor metrics core

A shallow embedding, in Lean 4, of the metrics-collection core of the
`erez-monitor` repository:

* `models/metrics.go` — the `Metrics` snapshot data model and its `Clone`;
* `storage/ringbuffer.go` — the bounded history store (`RingBuffer`) with
  `Add`, `GetLast`, `GetLatest`, `GetAll`, `GetAverage`, `GetMinMax`,
  `Clear`, `Size`, `Capacity`, `IsFull`, `IsEmpty`;
* `collector/collector.go` — the collection orchestrator (`New`, `Start`,
  `Stop`, `collect`, `GetLatest`), modelled both as a sequential state
  machine (start/stop) and as a timed per-tick model (adapter fan-out with
  the 800 ms ceiling, clone into the store, atomic publication of the live
  struct pointer);
* `config` — the monitoring configuration carried into `collector.New`,
  and `Config.Validate`'s monitoring checks.

Conventions of the embedding:

* Go `float64` fields are modelled as exact rationals (`ℚ`); the proofs
  about averaging and min/max concern the arithmetic the code performs,
  with IEEE-754 rounding abstracted away (all comparisons used by
  `GetMinMax` are exact under this abstraction).
* Go `uint64`/`uint32` are modelled as `ℕ` with explicit reduction
  `% 2^64` / `% 2^32` at each arithmetic step where the code could wrap
  (the running sums in `GetAverage`).
* Go `time.Time` is an abstract instant, modelled as `ℕ`.
* Pointer structure is invisible at the value level; where aliasing is the
  property under study (copy isolation of the store) a second, explicitly
  pointer-level embedding with a heap is given (`Heap`, `RingBufferP`).
-/

namespace ErezMonitor

/-! ## Data model (`models/metrics.go`) -/

/-- `CPUMetrics` from `models/metrics.go`. -/
structure CPUMetrics where
  usagePercent : ℚ
  perCorePercent : List ℚ
  temperature : ℚ
  frequencyMHz : ℕ
  deriving DecidableEq, Repr

/-- `MemoryMetrics` from `models/metrics.go`. -/
structure MemoryMetrics where
  usedMB : ℕ
  totalMB : ℕ
  usedPercent : ℚ
  swapUsedMB : ℕ
  swapTotalMB : ℕ
  deriving DecidableEq, Repr

/-- `GPUMetrics` from `models/metrics.go`. -/
structure GPUMetrics where
  available : Bool
  name : String
  usagePercent : ℚ
  temperatureC : ℕ
  vramUsedMB : ℕ
  vramTotalMB : ℕ
  clockMHz : ℕ
  memoryClockMHz : ℕ
  powerWatts : ℚ
  fanSpeedPercent : ℕ
  deriving DecidableEq, Repr

/-- `DiskInfo` from `models/metrics.go`. -/
structure DiskInfo where
  path : String
  fileSystem : String
  usedGB : ℕ
  totalGB : ℕ
  freeGB : ℕ
  usedPercent : ℚ
  deriving DecidableEq, Repr

/-- `DiskMetrics` from `models/metrics.go`. -/
structure DiskMetrics where
  readMBps : ℚ
  writeMBps : ℚ
  readIOPS : ℕ
  writeIOPS : ℕ
  disks : List DiskInfo
  deriving DecidableEq, Repr

/-- `InterfaceInfo` from `models/metrics.go`. -/
structure InterfaceInfo where
  name : String
  downloadKBps : ℚ
  uploadKBps : ℚ
  isUp : Bool
  deriving DecidableEq, Repr

/-- `NetworkMetrics` from `models/metrics.go`. -/
structure NetworkMetrics where
  downloadKBps : ℚ
  uploadKBps : ℚ
  downloadBytes : ℕ
  uploadBytes : ℕ
  packetsRecv : ℕ
  packetsSent : ℕ
  interfaces : List InterfaceInfo
  deriving DecidableEq, Repr

/-- `ProcessInfo` from `models/metrics.go`. -/
structure ProcessInfo where
  name : String
  pid : ℤ
  cpuPercent : ℚ
  memoryMB : ℕ
  memoryPercent : ℚ
  threads : ℤ
  status : String
  deriving DecidableEq, Repr

/-- `Metrics` from `models/metrics.go`: one complete snapshot. The
`Timestamp` (`time.Time`) is modelled as an abstract instant `ℕ`. -/
structure Metrics where
  timestamp : ℕ
  cpu : CPUMetrics
  memory : MemoryMetrics
  gpu : GPUMetrics
  disk : DiskMetrics
  network : NetworkMetrics
  topProcesses : List ProcessInfo
  deriving DecidableEq, Repr

/-- The Go zero value of `CPUMetrics`. -/
def CPUMetrics.zero : CPUMetrics :=
  { usagePercent := 0, perCorePercent := [], temperature := 0, frequencyMHz := 0 }

/-- The Go zero value of `MemoryMetrics`. -/
def MemoryMetrics.zero : MemoryMetrics :=
  { usedMB := 0, totalMB := 0, usedPercent := 0, swapUsedMB := 0, swapTotalMB := 0 }

/-- The Go zero value of `GPUMetrics`. -/
def GPUMetrics.zero : GPUMetrics :=
  { available := false, name := "", usagePercent := 0, temperatureC := 0,
    vramUsedMB := 0, vramTotalMB := 0, clockMHz := 0, memoryClockMHz := 0,
    powerWatts := 0, fanSpeedPercent := 0 }

/-- The Go zero value of `DiskMetrics`. -/
def DiskMetrics.zero : DiskMetrics :=
  { readMBps := 0, writeMBps := 0, readIOPS := 0, writeIOPS := 0, disks := [] }

/-- The Go zero value of `NetworkMetrics`. -/
def NetworkMetrics.zero : NetworkMetrics :=
  { downloadKBps := 0, uploadKBps := 0, downloadBytes := 0, uploadBytes := 0,
    packetsRecv := 0, packetsSent := 0, interfaces := [] }

/-- The Go zero value of `Metrics` (`&models.Metrics{}` with a zero
timestamp). -/
def Metrics.zero : Metrics :=
  { timestamp := 0, cpu := CPUMetrics.zero, memory := MemoryMetrics.zero,
    gpu := GPUMetrics.zero, disk := DiskMetrics.zero,
    network := NetworkMetrics.zero, topProcesses := [] }

/-- `Metrics.Clone` from `models/metrics.go`: a struct copy followed by an
element-wise copy of each of the four slice fields (`CPU.PerCorePercent`,
`Disk.Disks`, `Network.Interfaces`, `TopProcesses`). At the value level an
element-wise copy of a list is the list itself; the aliasing consequence of
`Clone` (the copy lives in a fresh heap cell) is modelled separately by
`Heap.alloc` below. -/
def Metrics.clone (m : Metrics) : Metrics :=
  { timestamp := m.timestamp
    cpu := { m.cpu with perCorePercent := m.cpu.perCorePercent }
    memory := m.memory
    gpu := m.gpu
    disk := { m.disk with disks := m.disk.disks }
    network := { m.network with interfaces := m.network.interfaces }
    topProcesses := m.topProcesses }

/-- At the value level `Clone` is the identity: it copies every field, and
the explicit slice copies reproduce the same list values. -/
theorem Metrics.clone_eq (m : Metrics) : m.clone = m := rfl

/-! ## History store, value level (`storage/ringbuffer.go`)

The `RingBuffer` holds `data []*models.Metrics`; here each slot holds the
*value* of the `Metrics` struct the slot's pointer refers to (`none` for a
nil pointer).  Because `Add` stores `metrics.Clone()` and every read
returns `…​.Clone()`, pointer identity is unobservable through the store's
API; the pointer-level model `RingBufferP` below makes that argument
explicit. -/

/-- The `RingBuffer` struct from `storage/ringbuffer.go`.  The redundant
`size` field of the Go struct (always kept equal to `count`) is omitted;
`Size()` returns `count`. -/
structure RingBuffer where
  data : List (Option Metrics)
  head : ℕ
  count : ℕ
  capacity : ℕ
  deriving DecidableEq, Repr

/-- `NewRingBuffer` from `storage/ringbuffer.go`: a non-positive capacity
is replaced by the default 60.  The Go parameter is an `int`, hence `ℤ`. -/
def NewRingBuffer (capacity : ℤ) : RingBuffer :=
  let cap : ℕ := if capacity ≤ 0 then 60 else capacity.toNat
  { data := List.replicate cap none, head := 0, count := 0, capacity := cap }

/-- `RingBuffer.Add`: store a clone at `head`, advance `head` modulo the
capacity, and grow `count` up to the capacity. -/
def RingBuffer.Add (rb : RingBuffer) (metrics : Metrics) : RingBuffer :=
  { rb with
    data := rb.data.set rb.head (some metrics.clone)
    head := (rb.head + 1) % rb.capacity
    count := if rb.count < rb.capacity then rb.count + 1 else rb.count }

/-- `RingBuffer.GetLast`: the last `n` snapshots in chronological order,
each cloned.  The Go index expression `(rb.head - n + rb.capacity) %
rb.capacity` is written `(rb.head + rb.capacity - n') % rb.capacity`; the
two agree because `n' ≤ rb.capacity` keeps the Go `int` expression
non-negative.  A `nil` slot cannot occur among the `count` logical entries
of a reachable buffer; reading one is modelled as the zero snapshot. -/
def RingBuffer.GetLast (rb : RingBuffer) (n : ℤ) : List Metrics :=
  if n ≤ 0 ∨ rb.count = 0 then []
  else
    let n' : ℕ := min n.toNat rb.count
    let start : ℕ := (rb.head + rb.capacity - n') % rb.capacity
    (List.range n').map fun i =>
      ((rb.data.getD ((start + i) % rb.capacity) none).getD Metrics.zero).clone

/-- `RingBuffer.GetLatest`: clone of the newest entry, `none` when empty.
The Go index `(rb.head - 1 + rb.capacity) % rb.capacity` is written with
the `+ rb.capacity` first, keeping the `ℕ` subtraction faithful. -/
def RingBuffer.GetLatest (rb : RingBuffer) : Option Metrics :=
  if rb.count = 0 then none
  else
    (rb.data.getD ((rb.head + rb.capacity - 1) % rb.capacity) none).map Metrics.clone

/-- `RingBuffer.GetAll` = `GetLast(count)`. -/
def RingBuffer.GetAll (rb : RingBuffer) : List Metrics :=
  rb.GetLast rb.count

/-- The nine running sums accumulated by the loop of
`RingBuffer.GetAverage`.  `memUsedSum` is a Go `uint64` and `gpuTempSum` a
Go `uint32`; each `+=` is reduced modulo the machine width. -/
structure AvgSums where
  cpuSum : ℚ
  memUsedSum : ℕ
  memPercentSum : ℚ
  gpuSum : ℚ
  gpuTempSum : ℕ
  diskReadSum : ℚ
  diskWriteSum : ℚ
  netDownloadSum : ℚ
  netUploadSum : ℚ
  deriving DecidableEq, Repr

/-- The zero-initialised sums of `GetAverage`'s `var (...)` block. -/
def AvgSums.zero : AvgSums :=
  { cpuSum := 0, memUsedSum := 0, memPercentSum := 0, gpuSum := 0,
    gpuTempSum := 0, diskReadSum := 0, diskWriteSum := 0,
    netDownloadSum := 0, netUploadSum := 0 }

/-- One iteration of the accumulation loop in `GetAverage`. -/
def AvgSums.step (s : AvgSums) (m : Metrics) : AvgSums :=
  { cpuSum := s.cpuSum + m.cpu.usagePercent
    memUsedSum := (s.memUsedSum + m.memory.usedMB) % 2 ^ 64
    memPercentSum := s.memPercentSum + m.memory.usedPercent
    gpuSum := s.gpuSum + m.gpu.usagePercent
    gpuTempSum := (s.gpuTempSum + m.gpu.temperatureC) % 2 ^ 32
    diskReadSum := s.diskReadSum + m.disk.readMBps
    diskWriteSum := s.diskWriteSum + m.disk.writeMBps
    netDownloadSum := s.netDownloadSum + m.network.downloadKBps
    netUploadSum := s.netUploadSum + m.network.uploadKBps }

/-- `RingBuffer.GetAverage` from `storage/ringbuffer.go`.  The `avg`
snapshot starts as `&models.Metrics{Timestamp: time.Now()}`; the wall
clock is abstracted to the instant `0`.  `UsedMB` and `TemperatureC` are
divided with Go unsigned integer division, i.e. `ℕ` floor division; the
`float64` fields with exact rational division. -/
def RingBuffer.GetAverage (rb : RingBuffer) (seconds : ℤ) : Option Metrics :=
  let snapshots := rb.GetLast seconds
  if snapshots.length = 0 then none
  else
    let s := snapshots.foldl AvgSums.step AvgSums.zero
    let n : ℚ := (snapshots.length : ℚ)
    let lastSnap := snapshots.getLastD Metrics.zero
    some
      { Metrics.zero with
        cpu := { CPUMetrics.zero with usagePercent := s.cpuSum / n }
        memory := { MemoryMetrics.zero with
          usedMB := s.memUsedSum / snapshots.length
          usedPercent := s.memPercentSum / n
          totalMB := lastSnap.memory.totalMB }
        gpu := { GPUMetrics.zero with
          usagePercent := s.gpuSum / n
          temperatureC := s.gpuTempSum / snapshots.length
          available := lastSnap.gpu.available }
        disk := { DiskMetrics.zero with
          readMBps := s.diskReadSum / n
          writeMBps := s.diskWriteSum / n }
        network := { NetworkMetrics.zero with
          downloadKBps := s.netDownloadSum / n
          uploadKBps := s.netUploadSum / n } }

/-- One iteration of the comparison loop in `GetMinMax`, updating the
running `(min, max)` pair exactly in the source's order: CPU, memory, GPU
utilization, GPU temperature.  Disk and network fields are not touched by
the source loop. -/
def minMaxStep (p : Metrics × Metrics) (m : Metrics) : Metrics × Metrics :=
  let mn := p.1
  let mx := p.2
  let mn := { mn with cpu := { mn.cpu with usagePercent :=
    if m.cpu.usagePercent < mn.cpu.usagePercent then m.cpu.usagePercent
    else mn.cpu.usagePercent } }
  let mx := { mx with cpu := { mx.cpu with usagePercent :=
    if mx.cpu.usagePercent < m.cpu.usagePercent then m.cpu.usagePercent
    else mx.cpu.usagePercent } }
  let mn := { mn with memory := { mn.memory with usedPercent :=
    if m.memory.usedPercent < mn.memory.usedPercent then m.memory.usedPercent
    else mn.memory.usedPercent } }
  let mx := { mx with memory := { mx.memory with usedPercent :=
    if mx.memory.usedPercent < m.memory.usedPercent then m.memory.usedPercent
    else mx.memory.usedPercent } }
  let mn := { mn with gpu := { mn.gpu with usagePercent :=
    if m.gpu.usagePercent < mn.gpu.usagePercent then m.gpu.usagePercent
    else mn.gpu.usagePercent } }
  let mx := { mx with gpu := { mx.gpu with usagePercent :=
    if mx.gpu.usagePercent < m.gpu.usagePercent then m.gpu.usagePercent
    else mx.gpu.usagePercent } }
  let mn := { mn with gpu := { mn.gpu with temperatureC :=
    if m.gpu.temperatureC < mn.gpu.temperatureC then m.gpu.temperatureC
    else mn.gpu.temperatureC } }
  let mx := { mx with gpu := { mx.gpu with temperatureC :=
    if mx.gpu.temperatureC < m.gpu.temperatureC then m.gpu.temperatureC
    else mx.gpu.temperatureC } }
  (mn, mx)

/-- The sentinel-initialised `(min, max)` pair declared at the top of
`GetMinMax`: `min` is seeded with 100 % for the three utilization
percentages and 200 °C for the GPU temperature, `max` with the zero value;
the timestamps come from the oldest and newest snapshot of the window. -/
def minMaxInit (snapshots : List Metrics) : Metrics × Metrics :=
  ({ Metrics.zero with
      timestamp := (snapshots.headD Metrics.zero).timestamp
      cpu := { CPUMetrics.zero with usagePercent := 100 }
      memory := { MemoryMetrics.zero with usedPercent := 100 }
      gpu := { GPUMetrics.zero with usagePercent := 100, temperatureC := 200 } },
   { Metrics.zero with timestamp := (snapshots.getLastD Metrics.zero).timestamp })

/-- `RingBuffer.GetMinMax` from `storage/ringbuffer.go`: `(nil, nil)` on an
empty window (modelled as `none`); otherwise the fold of `minMaxStep` over
the window starting from `minMaxInit`. -/
def RingBuffer.GetMinMax (rb : RingBuffer) (seconds : ℤ) : Option (Metrics × Metrics) :=
  let snapshots := rb.GetLast seconds
  if snapshots.length = 0 then none
  else some (snapshots.foldl minMaxStep (minMaxInit snapshots))

/-- `RingBuffer.Clear`. -/
def RingBuffer.Clear (rb : RingBuffer) : RingBuffer :=
  { rb with data := List.replicate rb.data.length none, head := 0, count := 0 }

/-- `RingBuffer.Size` (returns `count`). -/
def RingBuffer.Size (rb : RingBuffer) : ℕ := rb.count

/-- `RingBuffer.Capacity`. -/
def RingBuffer.Capacity (rb : RingBuffer) : ℕ := rb.capacity

/-- `RingBuffer.IsFull`. -/
def RingBuffer.IsFull (rb : RingBuffer) : Bool := rb.count = rb.capacity

/-- `RingBuffer.IsEmpty`. -/
def RingBuffer.IsEmpty (rb : RingBuffer) : Bool := rb.count = 0

/-! ## Reachable buffer states

A buffer reachable through the public API is `NewRingBuffer capacity`
followed by a sequence of `Add`s (the orchestrator is the sole writer).
`RingBuffer.build` constructs it; `RingBuffer.Inv` is the gluing invariant
relating such a state to the abstract list of snapshots ever added. -/

/-- The buffer obtained from `NewRingBuffer capacity` by adding the
snapshots of `ms` in order (oldest first). -/
def RingBuffer.build (capacity : ℤ) (ms : List Metrics) : RingBuffer :=
  ms.foldl RingBuffer.Add (NewRingBuffer capacity)

/-- Gluing invariant: the buffer `rb` of capacity `C` represents the
addition history `ms` — `count` and `head` are determined by `ms.length`,
and slot `j % C` holds the `j`-th added snapshot for each of the
`min ms.length C` most recent indices `j`. -/
def RingBuffer.Inv (C : ℕ) (ms : List Metrics) (rb : RingBuffer) : Prop :=
  rb.capacity = C ∧ rb.data.length = C ∧ rb.count = min ms.length C ∧
  rb.head = ms.length % C ∧
  ∀ j : ℕ, (hj : j < ms.length) → ms.length ≤ j + C →
    rb.data.getD (j % C) none = some ms[j]

theorem getD_set_self {α : Type} : ∀ (l : List α) (i : ℕ), i < l.length →
    ∀ (a d : α), (l.set i a).getD i d = a := by
  intro l
  induction l with
  | nil => intro i h a d; simp at h
  | cons x xs ih =>
    intro i h a d
    cases i with
    | zero => rfl
    | succ k => simpa [List.getD] using ih k (by simpa using h) a d

theorem getD_set_ne {α : Type} : ∀ (l : List α) {i j : ℕ}, i ≠ j →
    ∀ (a d : α), (l.set i a).getD j d = l.getD j d := by
  intro l
  induction l with
  | nil => intro i j _ a d; rfl
  | cons x xs ih =>
    intro i j hij a d
    cases i with
    | zero =>
      cases j with
      | zero => exact absurd rfl hij
      | succ k => rfl
    | succ i' =>
      cases j with
      | zero => rfl
      | succ k => simpa [List.getD] using ih (fun h => hij (by omega)) a d

/-- Two indices at distance strictly between `0` and `C` have distinct
residues modulo `C`. -/
theorem mod_ne_of_between {C j l : ℕ} (hjl : j < l) (hl : l < j + C) :
    j % C ≠ l % C := by
  intro h
  have hdvd : C ∣ l - j := (Nat.modEq_iff_dvd' (le_of_lt hjl)).mp h
  have := Nat.le_of_dvd (by omega) hdvd
  omega

theorem newRingBuffer_capacity_pos (z : ℤ) : 0 < (NewRingBuffer z).capacity := by
  simp only [NewRingBuffer]
  split <;> omega

theorem inv_new (z : ℤ) :
    RingBuffer.Inv (NewRingBuffer z).capacity [] (NewRingBuffer z) := by
  refine ⟨rfl, ?_, ?_, ?_, ?_⟩
  · simp [NewRingBuffer]
  · simp [NewRingBuffer]
  · simp [NewRingBuffer]
  · intro j hj
    simp at hj

theorem inv_add {C : ℕ} (hC : 0 < C) {ms : List Metrics} {rb : RingBuffer}
    (h : RingBuffer.Inv C ms rb) (m : Metrics) :
    RingBuffer.Inv C (ms ++ [m]) (rb.Add m) := by
  obtain ⟨hcap, hlen, hcnt, hhd, hcontent⟩ := h
  refine ⟨hcap, ?_, ?_, ?_, ?_⟩
  · simp [RingBuffer.Add, hlen]
  · simp only [RingBuffer.Add, List.length_append, List.length_singleton]
    rw [hcnt, hcap]
    split <;> omega
  · simp only [RingBuffer.Add, List.length_append, List.length_singleton]
    rw [hhd, hcap, Nat.mod_add_mod]
  · intro j hj hge
    simp only [List.length_append, List.length_singleton] at hj hge
    simp only [RingBuffer.Add]
    by_cases hjm : j = ms.length
    · subst hjm
      have hlt : rb.head < rb.data.length := by
        rw [hlen, hhd]
        exact Nat.mod_lt _ hC
      rw [← hhd, getD_set_self _ _ hlt _ _, Metrics.clone_eq]
      congr 1
      simp
    · have hjlt : j < ms.length := by omega
      have hne : rb.head ≠ j % C := by
        rw [hhd]
        intro hcontra
        exact mod_ne_of_between hjlt (by omega) hcontra.symm
      rw [getD_set_ne _ hne _ _, hcontent j hjlt (by omega)]
      congr 1
      exact (List.getElem_append_left hjlt).symm

theorem build_append (z : ℤ) (ms : List Metrics) (m : Metrics) :
    RingBuffer.build z (ms ++ [m]) = (RingBuffer.build z ms).Add m := by
  simp [RingBuffer.build]

theorem build_inv (z : ℤ) (ms : List Metrics) :
    RingBuffer.Inv (NewRingBuffer z).capacity ms (RingBuffer.build z ms) := by
  induction ms using List.reverseRecOn with
  | nil => exact inv_new z
  | append_singleton ms m ih =>
    rw [build_append]
    exact inv_add (newRingBuffer_capacity_pos z) ih m

/-- Characterisation of `GetLast` on any state satisfying the invariant:
it returns exactly the `min n count` most recently added snapshots, in
insertion order — i.e. a suffix of the addition history. -/
theorem getLast_of_inv {C : ℕ} (hC : 0 < C) {ms : List Metrics} {rb : RingBuffer}
    (h : RingBuffer.Inv C ms rb) (n : ℤ) :
    rb.GetLast n =
      if n ≤ 0 then []
      else ms.drop (ms.length - min n.toNat (min ms.length C)) := by
  obtain ⟨hcap, hlen, hcnt, hhd, hcontent⟩ := h
  by_cases hn : n ≤ 0
  · simp [RingBuffer.GetLast, hn]
  · rw [if_neg hn]
    by_cases hms : ms.length = 0
    · have hms' : ms = [] := List.length_eq_zero.mp hms
      subst hms'
      simp only [List.length_nil] at hcnt
      simp [RingBuffer.GetLast, hcnt]
    · have hcount : rb.count ≠ 0 := by rw [hcnt]; omega
      have hguard : ¬(n ≤ 0 ∨ rb.count = 0) := by
        rintro (hcontra | hcontra)
        · exact hn hcontra
        · exact hcount hcontra
      show (if n ≤ 0 ∨ rb.count = 0 then []
        else
          let k : ℕ := min n.toNat rb.count
          let start : ℕ := (rb.head + rb.capacity - k) % rb.capacity
          (List.range k).map fun i =>
            ((rb.data.getD ((start + i) % rb.capacity) none).getD Metrics.zero).clone) = _
      rw [if_neg hguard]
      set k : ℕ := min n.toNat rb.count with hk
      have hkcount : k ≤ rb.count := min_le_right _ _
      have hkC : k ≤ C := by rw [hcnt] at hkcount; omega
      have hklen : k ≤ ms.length := by rw [hcnt] at hkcount; omega
      have hrhs : min n.toNat (min ms.length C) = k := by rw [hk, hcnt]
      rw [hrhs]
      apply List.ext_getElem
      · simp only [List.length_map, List.length_range, List.length_drop]
        omega
      · intro i hi hi'
        simp only [List.length_map, List.length_range] at hi
        simp only [List.getElem_map, List.getElem_range]
        have hidx : ((rb.head + rb.capacity - k) % rb.capacity + i) % rb.capacity
            = (ms.length - k + i) % C := by
          rw [hcap, hhd]
          have h1 : ms.length % C + C - k = ms.length % C + (C - k) := by omega
          rw [h1, Nat.mod_add_mod]
          have h2 : ms.length % C + (C - k) + i = ms.length % C + ((C - k) + i) := by omega
          rw [h2, Nat.mod_add_mod]
          have h3 : ms.length + ((C - k) + i) = (ms.length - k + i) + C := by omega
          rw [h3, Nat.add_mod_right]
        rw [hidx]
        have hjlt : ms.length - k + i < ms.length := by omega
        rw [hcontent (ms.length - k + i) hjlt (by omega)]
        simp only [Option.getD_some, Metrics.clone_eq]
        rw [List.getElem_drop]

/-- Test-fixture snapshot mirroring `createTestMetrics` of the
repository's ring-buffer test file (only `Timestamp` is abstracted to 0). -/
def createTestMetrics (cpuPercent memPercent : ℚ) : Metrics :=
  { timestamp := 0
    cpu :=
      { usagePercent := cpuPercent
        perCorePercent := [cpuPercent, cpuPercent]
        temperature := 50
        frequencyMHz := 0 }
    memory :=
      { MemoryMetrics.zero with
        usedMB := 8192
        totalMB := 16384
        usedPercent := memPercent }
    gpu := { GPUMetrics.zero with available := true, usagePercent := 50, temperatureC := 65 }
    disk := { DiskMetrics.zero with readMBps := 100, writeMBps := 50 }
    network := { NetworkMetrics.zero with downloadKBps := 1000, uploadKBps := 500 }
    topProcesses := [{ name := "test.exe", pid := 1234, cpuPercent := 10, memoryMB := 256,
                       memoryPercent := 0, threads := 0, status := "" }] }

/-! ## Claim theorems about the history store -/

/-- C3: for every sequence of adds, `size()` never exceeds `capacity()`;
and once `size() = capacity()`, a further add evicts exactly the oldest
entry: `last(capacity)` afterwards returns exactly the `capacity` most
recently added snapshots in insertion order (the suffix of the addition
history that drops everything older). -/
theorem ringBuffer_size_bounded_fifo (z : ℤ) (ms : List Metrics) (m : Metrics) :
    (RingBuffer.build z ms).Size ≤ (RingBuffer.build z ms).Capacity ∧
    ((RingBuffer.build z ms).Size = (RingBuffer.build z ms).Capacity →
      (RingBuffer.build z (ms ++ [m])).GetLast ((RingBuffer.build z ms).Capacity : ℤ) =
        (ms ++ [m]).drop (ms.length + 1 - (RingBuffer.build z ms).Capacity)) := by
  have hC : 0 < (NewRingBuffer z).capacity := newRingBuffer_capacity_pos z
  obtain ⟨hcap, -, hcnt, -, -⟩ := build_inv z ms
  constructor
  · rw [RingBuffer.Size, RingBuffer.Capacity, hcnt, hcap]
    omega
  · intro hfull
    rw [RingBuffer.Size, RingBuffer.Capacity, hcnt, hcap] at hfull
    have hCle : (NewRingBuffer z).capacity ≤ ms.length := by omega
    have h2 := getLast_of_inv hC (build_inv z (ms ++ [m]))
      ((RingBuffer.build z ms).Capacity : ℤ)
    rw [h2, if_neg (by rw [RingBuffer.Capacity, hcap]; omega : ¬((RingBuffer.build z ms).Capacity : ℤ) ≤ 0)]
    rw [RingBuffer.Capacity, hcap]
    congr 1
    simp only [List.length_append, List.length_singleton]
    omega

/-- Closed witness for `ringBuffer_size_bounded_fifo`: capacity 3, four
adds; `last(3)` after the fourth add drops exactly the oldest snapshot. -/
theorem ringBuffer_size_bounded_fifo_witness :
    (RingBuffer.build 3 [createTestMetrics 10 50, createTestMetrics 20 50,
        createTestMetrics 30 50]).Size =
      (RingBuffer.build 3 [createTestMetrics 10 50, createTestMetrics 20 50,
        createTestMetrics 30 50]).Capacity ∧
    (RingBuffer.build 3 ([createTestMetrics 10 50, createTestMetrics 20 50,
        createTestMetrics 30 50] ++ [createTestMetrics 40 50])).GetLast 3 =
      [createTestMetrics 20 50, createTestMetrics 30 50, createTestMetrics 40 50] := by
  refine ⟨by decide, ?_⟩
  have h := (ringBuffer_size_bounded_fifo 3
    [createTestMetrics 10 50, createTestMetrics 20 50, createTestMetrics 30 50]
    (createTestMetrics 40 50)).2 (by decide)
  rw [show ((RingBuffer.build 3 [createTestMetrics 10 50, createTestMetrics 20 50,
      createTestMetrics 30 50]).Capacity : ℤ) = 3 from by decide] at h
  rw [h]
  decide

/-- C6: `last(n)` with `n` greater than `size()` returns exactly `size()`
entries, in chronological (insertion) order; `last(n)` with `n ≤ 0`
returns empty. -/
theorem getLast_clamps_and_rejects_nonpositive (z : ℤ) (ms : List Metrics) (n : ℤ) :
    (n ≤ 0 → (RingBuffer.build z ms).GetLast n = []) ∧
    (((RingBuffer.build z ms).Size : ℤ) < n →
      (RingBuffer.build z ms).GetLast n =
          ms.drop (ms.length - (RingBuffer.build z ms).Size) ∧
        ((RingBuffer.build z ms).GetLast n).length = (RingBuffer.build z ms).Size) := by
  have hC : 0 < (NewRingBuffer z).capacity := newRingBuffer_capacity_pos z
  have hlast := getLast_of_inv hC (build_inv z ms) n
  obtain ⟨hcap, -, hcnt, -, -⟩ := build_inv z ms
  constructor
  · intro hn
    rw [hlast, if_pos hn]
  · intro hn
    have hn0 : ¬ n ≤ 0 := by
      rw [RingBuffer.Size] at hn
      omega
    have hmin : min n.toNat (min ms.length (NewRingBuffer z).capacity) =
        min ms.length (NewRingBuffer z).capacity := by
      rw [RingBuffer.Size, hcnt] at hn
      omega
    rw [hlast, if_neg hn0, hmin, RingBuffer.Size, hcnt]
    refine ⟨rfl, ?_⟩
    simp only [List.length_drop]
    omega

/-- Closed witness for `getLast_clamps_and_rejects_nonpositive`: two adds
into capacity 5, `last(0)` is empty, and `last(10)` returns both entries. -/
theorem getLast_clamps_and_rejects_nonpositive_witness :
    (RingBuffer.build 5 [createTestMetrics 10 50, createTestMetrics 20 50]).GetLast 0 = [] ∧
    (RingBuffer.build 5 [createTestMetrics 10 50, createTestMetrics 20 50]).GetLast 10 =
      [createTestMetrics 10 50, createTestMetrics 20 50] := by
  constructor
  · exact (getLast_clamps_and_rejects_nonpositive 5
      [createTestMetrics 10 50, createTestMetrics 20 50] 0).1 (by decide)
  · have h := ((getLast_clamps_and_rejects_nonpositive 5
      [createTestMetrics 10 50, createTestMetrics 20 50] 10).2 (by decide)).1
    rw [h]
    decide

/-- The per-field arithmetic mean over a window of snapshots, written
directly as list sums: exact rational division for the `float64` fields,
and the code's wrapped sum with floor division for the two unsigned
integer fields (`UsedMB`, `TemperatureC`). -/
def avgOfWindow (w : List Metrics) : Metrics :=
  let n : ℚ := (w.length : ℚ)
  { Metrics.zero with
    cpu := { CPUMetrics.zero with
      usagePercent := (w.map fun m => m.cpu.usagePercent).sum / n }
    memory := { MemoryMetrics.zero with
      usedMB := (w.map fun m => m.memory.usedMB).sum % 2 ^ 64 / w.length
      usedPercent := (w.map fun m => m.memory.usedPercent).sum / n
      totalMB := (w.getLastD Metrics.zero).memory.totalMB }
    gpu := { GPUMetrics.zero with
      usagePercent := (w.map fun m => m.gpu.usagePercent).sum / n
      temperatureC := (w.map fun m => m.gpu.temperatureC).sum % 2 ^ 32 / w.length
      available := (w.getLastD Metrics.zero).gpu.available }
    disk := { DiskMetrics.zero with
      readMBps := (w.map fun m => m.disk.readMBps).sum / n
      writeMBps := (w.map fun m => m.disk.writeMBps).sum / n }
    network := { NetworkMetrics.zero with
      downloadKBps := (w.map fun m => m.network.downloadKBps).sum / n
      uploadKBps := (w.map fun m => m.network.uploadKBps).sum / n } }

/-- Closed form of the accumulation loop of `GetAverage`: folding
`AvgSums.step` computes each field's list sum (the two unsigned fields
reduced modulo their machine width). -/
theorem avgSums_foldl (w : List Metrics) : ∀ init : AvgSums,
    init.memUsedSum < 2 ^ 64 → init.gpuTempSum < 2 ^ 32 →
    w.foldl AvgSums.step init =
      { cpuSum := init.cpuSum + (w.map fun m => m.cpu.usagePercent).sum
        memUsedSum := (init.memUsedSum + (w.map fun m => m.memory.usedMB).sum) % 2 ^ 64
        memPercentSum := init.memPercentSum + (w.map fun m => m.memory.usedPercent).sum
        gpuSum := init.gpuSum + (w.map fun m => m.gpu.usagePercent).sum
        gpuTempSum := (init.gpuTempSum + (w.map fun m => m.gpu.temperatureC).sum) % 2 ^ 32
        diskReadSum := init.diskReadSum + (w.map fun m => m.disk.readMBps).sum
        diskWriteSum := init.diskWriteSum + (w.map fun m => m.disk.writeMBps).sum
        netDownloadSum := init.netDownloadSum + (w.map fun m => m.network.downloadKBps).sum
        netUploadSum := init.netUploadSum + (w.map fun m => m.network.uploadKBps).sum } := by
  induction w with
  | nil =>
    intro init h64 h32
    simp only [List.foldl_nil, List.map_nil, List.sum_nil, add_zero, Nat.add_zero,
      Nat.mod_eq_of_lt h64, Nat.mod_eq_of_lt h32]
  | cons x xs ih =>
    intro init h64 h32
    simp only [List.foldl_cons, List.map_cons, List.sum_cons]
    rw [ih (init.step x) (Nat.mod_lt _ (by norm_num)) (Nat.mod_lt _ (by norm_num))]
    simp only [AvgSums.step, AvgSums.mk.injEq]
    refine ⟨by ring, by omega, by ring, by ring, by omega, by ring, by ring, by ring, by ring⟩

/-- `GetAverage` on a reachable buffer, in closed form: the mean of the
window of the `min n.toNat (min ms.length capacity)` most recent adds. -/
theorem getAverage_build (z : ℤ) (ms : List Metrics) (n : ℤ)
    (hn : 0 < n) (hms : ms ≠ []) :
    (RingBuffer.build z ms).GetAverage n =
      some (avgOfWindow (ms.drop
        (ms.length - min n.toNat (min ms.length (NewRingBuffer z).capacity)))) := by
  have hC : 0 < (NewRingBuffer z).capacity := newRingBuffer_capacity_pos z
  have hlast := getLast_of_inv hC (build_inv z ms) n
  have hn0 : ¬ n ≤ 0 := by omega
  set k : ℕ := min n.toNat (min ms.length (NewRingBuffer z).capacity) with hk
  have hms' : 0 < ms.length := List.length_pos.mpr hms
  have hk1 : 1 ≤ k := by
    rw [hk]
    omega
  have hklen : k ≤ ms.length := by
    rw [hk]
    omega
  have hw : (RingBuffer.build z ms).GetLast n = ms.drop (ms.length - k) := by
    rw [hlast, if_neg hn0]
  have hwlen : (ms.drop (ms.length - k)).length = k := by
    simp only [List.length_drop]
    omega
  simp only [RingBuffer.GetAverage, hw, hwlen]
  rw [if_neg (by omega)]
  rw [avgSums_foldl _ AvgSums.zero (by norm_num [AvgSums.zero]) (by norm_num [AvgSums.zero])]
  simp only [avgOfWindow, AvgSums.zero, zero_add, Nat.zero_add, hwlen]

/-- C5: `average(n)` returns the arithmetic mean of the numeric fields
over the last `min(n, size())` entries, and `nil` when the store holds no
data (or `n ≤ 0`); over CPU values `[10,20,30,40,50]`, `n = 5` yields 30
and `n = 3` yields 40. -/
theorem getAverage_window_mean (z : ℤ) (ms : List Metrics) (n : ℤ) :
    (ms = [] → (RingBuffer.build z ms).GetAverage n = none) ∧
    (n ≤ 0 → (RingBuffer.build z ms).GetAverage n = none) ∧
    (0 < n → ms ≠ [] →
      (RingBuffer.build z ms).GetAverage n =
        some (avgOfWindow (ms.drop
          (ms.length - min n.toNat (min ms.length (NewRingBuffer z).capacity))))) ∧
    ((RingBuffer.build 10 [createTestMetrics 10 50, createTestMetrics 20 50,
        createTestMetrics 30 50, createTestMetrics 40 50,
        createTestMetrics 50 50]).GetAverage 5).map
      (fun a => a.cpu.usagePercent) = some 30 ∧
    ((RingBuffer.build 10 [createTestMetrics 10 50, createTestMetrics 20 50,
        createTestMetrics 30 50, createTestMetrics 40 50,
        createTestMetrics 50 50]).GetAverage 3).map
      (fun a => a.cpu.usagePercent) = some 40 := by
  have hC : 0 < (NewRingBuffer z).capacity := newRingBuffer_capacity_pos z
  have hlast := getLast_of_inv hC (build_inv z ms) n
  refine ⟨?_, ?_, fun hn hms => getAverage_build z ms n hn hms, ?_, ?_⟩
  · intro h
    subst h
    simp only [RingBuffer.GetAverage, hlast]
    split
    · simp
    · simp
  · intro hn
    simp only [RingBuffer.GetAverage, hlast, if_pos hn]
    simp
  · rw [getAverage_build 10 _ 5 (by norm_num) (by simp)]
    simp [avgOfWindow, createTestMetrics, NewRingBuffer]
    norm_num
  · rw [getAverage_build 10 _ 3 (by norm_num) (by simp)]
    simp [avgOfWindow, createTestMetrics, NewRingBuffer]
    norm_num

/-- Closed witness for `getAverage_window_mean`: the empty store yields
`none`, and the mean-branch applied at a concrete two-entry store. -/
theorem getAverage_window_mean_witness :
    (RingBuffer.build 5 []).GetAverage 3 = none ∧
    (RingBuffer.build 5 [createTestMetrics 10 50, createTestMetrics 20 50]).GetAverage 3 =
      some (avgOfWindow [createTestMetrics 10 50, createTestMetrics 20 50]) := by
  constructor
  · exact (getAverage_window_mean 5 [] 3).1 rfl
  · have h := (getAverage_window_mean 5
      [createTestMetrics 10 50, createTestMetrics 20 50] 3).2.2.1 (by decide) (by decide)
    rw [h]
    congr 1

/-- A snapshot whose only non-zero fields are the two unsigned integer
fields averaged by `GetAverage` (`UsedMB` and `TemperatureC`), used to
exhibit strict truncation. -/
def oddMetrics : Metrics :=
  { Metrics.zero with
    memory := { MemoryMetrics.zero with usedMB := 1 }
    gpu := { GPUMetrics.zero with temperatureC := 1 } }

/-- C10: in a non-empty `average(n)` result the integer-typed fields
(memory used MB, accelerator temperature) are computed with truncating
unsigned integer division of the (machine-width wrapped) sum by the entry
count, hence never exceed the exact arithmetic mean, and can be strictly
below it. -/
theorem getAverage_integer_truncation :
    (∀ (rb : RingBuffer) (n : ℤ) (avg : Metrics),
      rb.GetAverage n = some avg →
      (avg.memory.usedMB =
          ((rb.GetLast n).map fun m => m.memory.usedMB).sum % 2 ^ 64 /
            (rb.GetLast n).length ∧
        (avg.memory.usedMB : ℚ) ≤
          ((((rb.GetLast n).map fun m => m.memory.usedMB).sum : ℕ) : ℚ) /
            ((rb.GetLast n).length : ℚ)) ∧
      (avg.gpu.temperatureC =
          ((rb.GetLast n).map fun m => m.gpu.temperatureC).sum % 2 ^ 32 /
            (rb.GetLast n).length ∧
        (avg.gpu.temperatureC : ℚ) ≤
          ((((rb.GetLast n).map fun m => m.gpu.temperatureC).sum : ℕ) : ℚ) /
            ((rb.GetLast n).length : ℚ))) ∧
    (∃ avg : Metrics,
      (RingBuffer.build 60 [Metrics.zero, oddMetrics]).GetAverage 2 = some avg ∧
      (avg.memory.usedMB : ℚ) <
        (((([Metrics.zero, oddMetrics].map fun m => m.memory.usedMB).sum : ℕ) : ℚ) / 2) ∧
      (avg.gpu.temperatureC : ℚ) <
        (((([Metrics.zero, oddMetrics].map fun m => m.gpu.temperatureC).sum : ℕ) : ℚ) / 2)) := by
  constructor
  · intro rb n avg h
    by_cases hlen : (rb.GetLast n).length = 0
    · simp [RingBuffer.GetAverage, hlen] at h
    · simp only [RingBuffer.GetAverage, if_neg hlen, Option.some.injEq] at h
      rw [avgSums_foldl _ AvgSums.zero (by norm_num [AvgSums.zero])
        (by norm_num [AvgSums.zero])] at h
      have hlenQ : (0 : ℚ) < ((rb.GetLast n).length : ℚ) := by
        exact_mod_cast Nat.pos_of_ne_zero hlen
      subst h
      simp only [AvgSums.zero, Nat.zero_add]
      refine ⟨⟨by trivial, ?_⟩, by trivial, ?_⟩
      · calc ((((rb.GetLast n).map fun m => m.memory.usedMB).sum % 2 ^ 64 /
              (rb.GetLast n).length : ℕ) : ℚ)
            ≤ ((((rb.GetLast n).map fun m => m.memory.usedMB).sum % 2 ^ 64 : ℕ) : ℚ) /
              ((rb.GetLast n).length : ℚ) := Nat.cast_div_le
          _ ≤ ((((rb.GetLast n).map fun m => m.memory.usedMB).sum : ℕ) : ℚ) /
              ((rb.GetLast n).length : ℚ) := by
              gcongr
              exact_mod_cast Nat.mod_le _ _
      · calc ((((rb.GetLast n).map fun m => m.gpu.temperatureC).sum % 2 ^ 32 /
              (rb.GetLast n).length : ℕ) : ℚ)
            ≤ ((((rb.GetLast n).map fun m => m.gpu.temperatureC).sum % 2 ^ 32 : ℕ) : ℚ) /
              ((rb.GetLast n).length : ℚ) := Nat.cast_div_le
          _ ≤ ((((rb.GetLast n).map fun m => m.gpu.temperatureC).sum : ℕ) : ℚ) /
              ((rb.GetLast n).length : ℚ) := by
              gcongr
              exact_mod_cast Nat.mod_le _ _
  · refine ⟨avgOfWindow [Metrics.zero, oddMetrics], ?_, ?_, ?_⟩
    · rw [getAverage_build 60 _ 2 (by norm_num) (by simp)]
      congr 1
    · simp [avgOfWindow, oddMetrics, Metrics.zero, MemoryMetrics.zero, GPUMetrics.zero]
    · simp [avgOfWindow, oddMetrics, Metrics.zero, MemoryMetrics.zero, GPUMetrics.zero]

/-- Closed witness for `getAverage_integer_truncation`: its universal part
applied at a concrete two-entry store. -/
theorem getAverage_integer_truncation_witness :
    ∃ avg : Metrics,
      (RingBuffer.build 60 [Metrics.zero, oddMetrics]).GetAverage 2 = some avg ∧
      avg.memory.usedMB =
        (((RingBuffer.build 60 [Metrics.zero, oddMetrics]).GetLast 2).map
          fun m => m.memory.usedMB).sum % 2 ^ 64 /
          ((RingBuffer.build 60 [Metrics.zero, oddMetrics]).GetLast 2).length := by
  have hb : (RingBuffer.build 60 [Metrics.zero, oddMetrics]).GetAverage 2 =
      some (avgOfWindow [Metrics.zero, oddMetrics]) := by
    rw [getAverage_build 60 _ 2 (by norm_num) (by simp)]
    congr 1
  exact ⟨avgOfWindow [Metrics.zero, oddMetrics], hb,
    ((getAverage_integer_truncation.1
      (RingBuffer.build 60 [Metrics.zero, oddMetrics]) 2 _ hb).1).1⟩

/-! ## `GetMinMax` -/

/-- The window of snapshots that `GetLast n` returns on the reachable
buffer `build z ms` (for `0 < n`): the `min n (min size capacity)` most
recent adds. -/
def windowOf (z : ℤ) (ms : List Metrics) (n : ℤ) : List Metrics :=
  ms.drop (ms.length - min n.toNat (min ms.length (NewRingBuffer z).capacity))

theorem ite_min {α : Type} [LinearOrder α] (a v : α) :
    (if v < a then v else a) = min a v := by
  rcases lt_or_ge v a with h | h
  · rw [if_pos h, min_eq_right h.le]
  · rw [if_neg (not_lt.mpr h), min_eq_left h]

theorem ite_max {α : Type} [LinearOrder α] (a v : α) :
    (if a < v then v else a) = max a v := by
  rcases lt_or_ge a v with h | h
  · rw [if_pos h, max_eq_right h.le]
  · rw [if_neg (not_lt.mpr h), max_eq_left h]

/-- Generic projection of the `GetMinMax` loop: if one projection of the
accumulator evolves by `op` with the per-snapshot value `f m`, the fold
computes the `op`-fold of the mapped window. -/
theorem minMax_foldl_proj {α : Type} (g : Metrics × Metrics → α) (f : Metrics → α)
    (op : α → α → α)
    (hstep : ∀ p m, g (minMaxStep p m) = op (g p) (f m)) :
    ∀ (w : List Metrics) (p : Metrics × Metrics),
      g (w.foldl minMaxStep p) = (w.map f).foldl op (g p) := by
  intro w
  induction w with
  | nil => intro p; rfl
  | cons x xs ih =>
    intro p
    simp only [List.foldl_cons, List.map_cons]
    rw [ih, hstep]

/-- Projections not touched by the `GetMinMax` loop stay at their initial
value. -/
theorem minMax_foldl_const {α : Type} (g : Metrics × Metrics → α)
    (hstep : ∀ p m, g (minMaxStep p m) = g p) :
    ∀ (w : List Metrics) (p : Metrics × Metrics),
      g (w.foldl minMaxStep p) = g p := by
  intro w
  induction w with
  | nil => intro p; rfl
  | cons x xs ih =>
    intro p
    simp only [List.foldl_cons]
    rw [ih, hstep]

theorem foldl_min_le_init {α : Type} [LinearOrder α] :
    ∀ (l : List α) (a : α), l.foldl min a ≤ a := by
  intro l
  induction l with
  | nil => intro a; exact le_refl a
  | cons x xs ih => intro a; exact le_trans (ih (min a x)) (min_le_left a x)

theorem foldl_min_le_mem {α : Type} [LinearOrder α] :
    ∀ (l : List α) (a x : α), x ∈ l → l.foldl min a ≤ x := by
  intro l
  induction l with
  | nil => intro a x hx; simp at hx
  | cons y ys ih =>
    intro a x hx
    rcases List.mem_cons.mp hx with h | h
    · subst h
      exact le_trans (foldl_min_le_init ys (min a x)) (min_le_right a x)
    · exact ih (min a y) x h

theorem foldl_min_cases {α : Type} [LinearOrder α] :
    ∀ (l : List α) (a : α), l.foldl min a = a ∨ l.foldl min a ∈ l := by
  intro l
  induction l with
  | nil => intro a; exact Or.inl rfl
  | cons x xs ih =>
    intro a
    rw [List.foldl_cons]
    rcases ih (min a x) with h | h
    · rw [h]
      rcases min_choice a x with h2 | h2
      · exact Or.inl h2
      · exact Or.inr (by rw [h2]; exact List.mem_cons_self x xs)
    · exact Or.inr (List.mem_cons_of_mem x h)

theorem foldl_max_ge_init {α : Type} [LinearOrder α] :
    ∀ (l : List α) (a : α), a ≤ l.foldl max a := by
  intro l
  induction l with
  | nil => intro a; exact le_refl a
  | cons x xs ih => intro a; exact le_trans (le_max_left a x) (ih (max a x))

theorem foldl_max_ge_mem {α : Type} [LinearOrder α] :
    ∀ (l : List α) (a x : α), x ∈ l → x ≤ l.foldl max a := by
  intro l
  induction l with
  | nil => intro a x hx; simp at hx
  | cons y ys ih =>
    intro a x hx
    rcases List.mem_cons.mp hx with h | h
    · subst h
      exact le_trans (le_max_right a x) (foldl_max_ge_init ys (max a x))
    · exact ih (max a y) x h

theorem foldl_max_cases {α : Type} [LinearOrder α] :
    ∀ (l : List α) (a : α), l.foldl max a = a ∨ l.foldl max a ∈ l := by
  intro l
  induction l with
  | nil => intro a; exact Or.inl rfl
  | cons x xs ih =>
    intro a
    rw [List.foldl_cons]
    rcases ih (max a x) with h | h
    · rw [h]
      rcases max_choice a x with h2 | h2
      · exact Or.inl h2
      · exact Or.inr (by rw [h2]; exact List.mem_cons_self x xs)
    · exact Or.inr (List.mem_cons_of_mem x h)

/-- When the sentinel `s` bounds every value from above, the min-fold from
`s` is a lower bound of the window that is attained on it. -/
theorem foldl_min_spec {α : Type} [LinearOrder α] (w : List Metrics) (f : Metrics → α)
    (s : α) (hw : w ≠ []) (hb : ∀ m ∈ w, f m ≤ s) :
    (∀ m ∈ w, (w.map f).foldl min s ≤ f m) ∧
    (∃ m ∈ w, f m = (w.map f).foldl min s) := by
  constructor
  · intro m hm
    exact foldl_min_le_mem _ _ _ (List.mem_map_of_mem f hm)
  · rcases foldl_min_cases (w.map f) s with h | h
    · obtain ⟨m0, hm0⟩ := List.exists_mem_of_ne_nil w hw
      have h1 : (w.map f).foldl min s ≤ f m0 :=
        foldl_min_le_mem _ _ _ (List.mem_map_of_mem f hm0)
      refine ⟨m0, hm0, le_antisymm ?_ h1⟩
      rw [h]
      exact hb m0 hm0
    · obtain ⟨m0, hm0, hfm⟩ := List.mem_map.mp h
      exact ⟨m0, hm0, hfm⟩

/-- Dually, when the sentinel `s` bounds every value from below, the
max-fold from `s` is an upper bound of the window that is attained. -/
theorem foldl_max_spec {α : Type} [LinearOrder α] (w : List Metrics) (f : Metrics → α)
    (s : α) (hw : w ≠ []) (hb : ∀ m ∈ w, s ≤ f m) :
    (∀ m ∈ w, f m ≤ (w.map f).foldl max s) ∧
    (∃ m ∈ w, f m = (w.map f).foldl max s) := by
  constructor
  · intro m hm
    exact foldl_max_ge_mem _ _ _ (List.mem_map_of_mem f hm)
  · rcases foldl_max_cases (w.map f) s with h | h
    · obtain ⟨m0, hm0⟩ := List.exists_mem_of_ne_nil w hw
      have h1 : f m0 ≤ (w.map f).foldl max s :=
        foldl_max_ge_mem _ _ _ (List.mem_map_of_mem f hm0)
      refine ⟨m0, hm0, le_antisymm h1 ?_⟩
      rw [h]
      exact hb m0 hm0
    · obtain ⟨m0, hm0, hfm⟩ := List.mem_map.mp h
      exact ⟨m0, hm0, hfm⟩

/-- C4 fails as stated: `minMax` never tracks storage or network
throughput.  On a single-entry window whose snapshot has disk read 100
MB/s and network download 1000 KB/s, the returned `max` reports 0 for
both fields — not the window's actual (unique) value. -/
theorem getMinMax_ignores_storage_network_cex :
    ((RingBuffer.build 3 [createTestMetrics 20 50]).GetLast 1).map
        (fun m => (m.disk.readMBps, m.network.downloadKBps)) = [(100, 1000)] ∧
    ((RingBuffer.build 3 [createTestMetrics 20 50]).GetMinMax 1).map
        (fun p => (p.2.disk.readMBps, p.2.network.downloadKBps)) = some (0, 0) := by
  exact ⟨by decide, by decide⟩

/-- C4 amended: over zero entries `minMax` returns an explicit empty
result; over a non-empty window it returns, for the four fields the loop
tracks (CPU %, memory %, GPU % and GPU temperature), values that — when
the data lies within the sentinel bounds (percentages in [0,100],
temperature ≤ 200) — are the true minimum and maximum over the last
`min(n, size())` entries (each bound is attained on the window); the
storage and network throughput fields of both results are not tracked and
are always 0.  For CPU values [20,50,30,80,10] it returns min 10, max 80. -/
theorem getMinMax_tracked_fields (z : ℤ) (ms : List Metrics) (n : ℤ)
    (hn : 0 < n) (hms : ms ≠ [])
    (hcpu : ∀ m ∈ ms, 0 ≤ m.cpu.usagePercent ∧ m.cpu.usagePercent ≤ 100)
    (hmem : ∀ m ∈ ms, 0 ≤ m.memory.usedPercent ∧ m.memory.usedPercent ≤ 100)
    (hgpu : ∀ m ∈ ms, 0 ≤ m.gpu.usagePercent ∧ m.gpu.usagePercent ≤ 100)
    (htmp : ∀ m ∈ ms, m.gpu.temperatureC ≤ 200) :
    ((RingBuffer.build z []).GetMinMax n = none ∧
      ((RingBuffer.build 10 [createTestMetrics 20 50, createTestMetrics 50 50,
          createTestMetrics 30 50, createTestMetrics 80 50,
          createTestMetrics 10 50]).GetMinMax 5).map
        (fun p => (p.1.cpu.usagePercent, p.2.cpu.usagePercent)) = some (10, 80)) ∧
    ∃ mn mx : Metrics,
      (RingBuffer.build z ms).GetMinMax n = some (mn, mx) ∧
      ((∀ m ∈ windowOf z ms n, mn.cpu.usagePercent ≤ m.cpu.usagePercent) ∧
        (∃ m ∈ windowOf z ms n, m.cpu.usagePercent = mn.cpu.usagePercent)) ∧
      ((∀ m ∈ windowOf z ms n, m.cpu.usagePercent ≤ mx.cpu.usagePercent) ∧
        (∃ m ∈ windowOf z ms n, m.cpu.usagePercent = mx.cpu.usagePercent)) ∧
      ((∀ m ∈ windowOf z ms n, mn.memory.usedPercent ≤ m.memory.usedPercent) ∧
        (∃ m ∈ windowOf z ms n, m.memory.usedPercent = mn.memory.usedPercent)) ∧
      ((∀ m ∈ windowOf z ms n, m.memory.usedPercent ≤ mx.memory.usedPercent) ∧
        (∃ m ∈ windowOf z ms n, m.memory.usedPercent = mx.memory.usedPercent)) ∧
      ((∀ m ∈ windowOf z ms n, mn.gpu.usagePercent ≤ m.gpu.usagePercent) ∧
        (∃ m ∈ windowOf z ms n, m.gpu.usagePercent = mn.gpu.usagePercent)) ∧
      ((∀ m ∈ windowOf z ms n, m.gpu.usagePercent ≤ mx.gpu.usagePercent) ∧
        (∃ m ∈ windowOf z ms n, m.gpu.usagePercent = mx.gpu.usagePercent)) ∧
      ((∀ m ∈ windowOf z ms n, mn.gpu.temperatureC ≤ m.gpu.temperatureC) ∧
        (∃ m ∈ windowOf z ms n, m.gpu.temperatureC = mn.gpu.temperatureC)) ∧
      ((∀ m ∈ windowOf z ms n, m.gpu.temperatureC ≤ mx.gpu.temperatureC) ∧
        (∃ m ∈ windowOf z ms n, m.gpu.temperatureC = mx.gpu.temperatureC)) ∧
      (mn.disk.readMBps = 0 ∧ mn.disk.writeMBps = 0 ∧
        mx.disk.readMBps = 0 ∧ mx.disk.writeMBps = 0 ∧
        mn.network.downloadKBps = 0 ∧ mn.network.uploadKBps = 0 ∧
        mx.network.downloadKBps = 0 ∧ mx.network.uploadKBps = 0) := by
  have hC : 0 < (NewRingBuffer z).capacity := newRingBuffer_capacity_pos z
  constructor
  · constructor
    · have hlast := getLast_of_inv hC (build_inv z ([] : List Metrics)) n
      simp only [RingBuffer.GetMinMax, hlast]
      split
      · simp
      · simp
    · decide
  · have hlast := getLast_of_inv hC (build_inv z ms) n
    have hn0 : ¬ n ≤ 0 := by omega
    have hw : (RingBuffer.build z ms).GetLast n = windowOf z ms n := by
      rw [hlast, if_neg hn0, windowOf]
    set w := windowOf z ms n with hwdef
    have hms' : 0 < ms.length := List.length_pos.mpr hms
    have hwlen : w.length =
        min n.toNat (min ms.length (NewRingBuffer z).capacity) := by
      rw [hwdef, windowOf]
      simp only [List.length_drop]
      omega
    have hwne : w ≠ [] := by
      intro hcontra
      have hl := congrArg List.length hcontra
      rw [hwlen] at hl
      simp only [List.length_nil] at hl
      omega
    have hsub : ∀ m ∈ w, m ∈ ms := by
      intro m hm
      rw [hwdef, windowOf] at hm
      exact List.drop_subset _ ms hm
    simp only [RingBuffer.GetMinMax, hw]
    rw [if_neg (fun hcontra => hwne (List.length_eq_zero.mp hcontra))]
    refine ⟨(w.foldl minMaxStep (minMaxInit w)).1,
      (w.foldl minMaxStep (minMaxInit w)).2, rfl, ?_, ?_, ?_, ?_, ?_, ?_, ?_, ?_, ?_⟩
    · have e : (w.foldl minMaxStep (minMaxInit w)).1.cpu.usagePercent =
          (w.map fun m => m.cpu.usagePercent).foldl min 100 :=
        minMax_foldl_proj (fun p => p.1.cpu.usagePercent)
          (fun m => m.cpu.usagePercent) min
          (fun p m => by simp [minMaxStep, ite_min]) w (minMaxInit w)
      rw [e]
      exact foldl_min_spec w _ 100 hwne (fun m hm => (hcpu m (hsub m hm)).2)
    · have e : (w.foldl minMaxStep (minMaxInit w)).2.cpu.usagePercent =
          (w.map fun m => m.cpu.usagePercent).foldl max 0 :=
        minMax_foldl_proj (fun p => p.2.cpu.usagePercent)
          (fun m => m.cpu.usagePercent) max
          (fun p m => by simp [minMaxStep, ite_max]) w (minMaxInit w)
      rw [e]
      exact foldl_max_spec w _ 0 hwne (fun m hm => (hcpu m (hsub m hm)).1)
    · have e : (w.foldl minMaxStep (minMaxInit w)).1.memory.usedPercent =
          (w.map fun m => m.memory.usedPercent).foldl min 100 :=
        minMax_foldl_proj (fun p => p.1.memory.usedPercent)
          (fun m => m.memory.usedPercent) min
          (fun p m => by simp [minMaxStep, ite_min]) w (minMaxInit w)
      rw [e]
      exact foldl_min_spec w _ 100 hwne (fun m hm => (hmem m (hsub m hm)).2)
    · have e : (w.foldl minMaxStep (minMaxInit w)).2.memory.usedPercent =
          (w.map fun m => m.memory.usedPercent).foldl max 0 :=
        minMax_foldl_proj (fun p => p.2.memory.usedPercent)
          (fun m => m.memory.usedPercent) max
          (fun p m => by simp [minMaxStep, ite_max]) w (minMaxInit w)
      rw [e]
      exact foldl_max_spec w _ 0 hwne (fun m hm => (hmem m (hsub m hm)).1)
    · have e : (w.foldl minMaxStep (minMaxInit w)).1.gpu.usagePercent =
          (w.map fun m => m.gpu.usagePercent).foldl min 100 :=
        minMax_foldl_proj (fun p => p.1.gpu.usagePercent)
          (fun m => m.gpu.usagePercent) min
          (fun p m => by simp [minMaxStep, ite_min]) w (minMaxInit w)
      rw [e]
      exact foldl_min_spec w _ 100 hwne (fun m hm => (hgpu m (hsub m hm)).2)
    · have e : (w.foldl minMaxStep (minMaxInit w)).2.gpu.usagePercent =
          (w.map fun m => m.gpu.usagePercent).foldl max 0 :=
        minMax_foldl_proj (fun p => p.2.gpu.usagePercent)
          (fun m => m.gpu.usagePercent) max
          (fun p m => by simp [minMaxStep, ite_max]) w (minMaxInit w)
      rw [e]
      exact foldl_max_spec w _ 0 hwne (fun m hm => (hgpu m (hsub m hm)).1)
    · have e : (w.foldl minMaxStep (minMaxInit w)).1.gpu.temperatureC =
          (w.map fun m => m.gpu.temperatureC).foldl min 200 :=
        minMax_foldl_proj (fun p => p.1.gpu.temperatureC)
          (fun m => m.gpu.temperatureC) min
          (fun p m => by simp [minMaxStep, ite_min]) w (minMaxInit w)
      rw [e]
      exact foldl_min_spec w _ 200 hwne (fun m hm => htmp m (hsub m hm))
    · have e : (w.foldl minMaxStep (minMaxInit w)).2.gpu.temperatureC =
          (w.map fun m => m.gpu.temperatureC).foldl max 0 :=
        minMax_foldl_proj (fun p => p.2.gpu.temperatureC)
          (fun m => m.gpu.temperatureC) max
          (fun p m => by simp [minMaxStep, ite_max]) w (minMaxInit w)
      rw [e]
      exact foldl_max_spec w _ 0 hwne (fun m hm => Nat.zero_le _)
    · refine ⟨?_, ?_, ?_, ?_, ?_, ?_, ?_, ?_⟩
      · exact minMax_foldl_const (fun p => p.1.disk.readMBps)
          (fun p m => by simp [minMaxStep]) w (minMaxInit w)
      · exact minMax_foldl_const (fun p => p.1.disk.writeMBps)
          (fun p m => by simp [minMaxStep]) w (minMaxInit w)
      · exact minMax_foldl_const (fun p => p.2.disk.readMBps)
          (fun p m => by simp [minMaxStep]) w (minMaxInit w)
      · exact minMax_foldl_const (fun p => p.2.disk.writeMBps)
          (fun p m => by simp [minMaxStep]) w (minMaxInit w)
      · exact minMax_foldl_const (fun p => p.1.network.downloadKBps)
          (fun p m => by simp [minMaxStep]) w (minMaxInit w)
      · exact minMax_foldl_const (fun p => p.1.network.uploadKBps)
          (fun p m => by simp [minMaxStep]) w (minMaxInit w)
      · exact minMax_foldl_const (fun p => p.2.network.downloadKBps)
          (fun p m => by simp [minMaxStep]) w (minMaxInit w)
      · exact minMax_foldl_const (fun p => p.2.network.uploadKBps)
          (fun p m => by simp [minMaxStep]) w (minMaxInit w)

/-- Closed witness for `getMinMax_tracked_fields`: applied at a concrete
two-entry store with in-range data. -/
theorem getMinMax_tracked_fields_witness :
    (RingBuffer.build 10 []).GetMinMax 2 = none ∧
    ∃ mn mx : Metrics,
      (RingBuffer.build 10 [createTestMetrics 20 50,
        createTestMetrics 80 50]).GetMinMax 2 = some (mn, mx) ∧
      mn.disk.readMBps = 0 ∧ mx.network.downloadKBps = 0 := by
  obtain ⟨⟨h0, -⟩, mn, mx, heq, -, -, -, -, -, -, -, -,
      hzn⟩ := getMinMax_tracked_fields 10
    [createTestMetrics 20 50, createTestMetrics 80 50] 2
    (by norm_num) (by simp) (by decide) (by decide) (by decide) (by decide)
  exact ⟨h0, mn, mx, heq, hzn.1, hzn.2.2.2.2.2.2.1⟩

/-! ## Collection orchestrator (`collector/collector.go`)

`collector.New` and the configuration it consumes, the `Start`/`Stop`
state machine, and a timed model of one `collect()` tick. -/

/-- `config.MonitoringConfig` (package `config`); the two `time.Duration`
fields are nanosecond counts (`int64`). -/
structure MonitoringConfig where
  updateIntervalNs : ℤ
  historyDurationNs : ℤ
  enableGPU : Bool
  enableProcesses : Bool
  topProcessCount : ℤ
  deriving DecidableEq, Repr

/-- The construction-time data of `collector.New` relevant to the
configuration claims: the interval later handed to `time.NewTicker`
(carried unchanged inside `c.config`) and the history ring buffer. -/
structure CollectorInit where
  updateIntervalNs : ℤ
  storage : RingBuffer
  enableGPU : Bool
  deriving DecidableEq, Repr

/-- `collector.New`: `historySeconds := int(cfg.HistoryDuration.Seconds())`
(seconds truncated toward zero, i.e. t-division of nanoseconds by 10^9),
replaced by 60 when non-positive, then handed to `NewRingBuffer`.  The
update interval is not inspected, floored or modified anywhere in `New`. -/
def collectorNew (cfg : MonitoringConfig) : CollectorInit :=
  let historySeconds : ℤ := cfg.historyDurationNs.tdiv 1000000000
  let corrected : ℤ := if historySeconds ≤ 0 then 60 else historySeconds
  { updateIntervalNs := cfg.updateIntervalNs
    storage := NewRingBuffer corrected
    enableGPU := cfg.enableGPU }

/-- The monitoring-related checks of `Config.Validate` (package `config`):
they only *report* violations as error strings — logged as warnings by the
caller — and modify nothing. -/
def validateMonitoring (cfg : MonitoringConfig) : List String :=
  (if cfg.updateIntervalNs < 100000000 then
    ["update_interval must be at least 100ms"] else []) ++
  (if cfg.historyDurationNs < 1000000000 then
    ["history_duration must be at least 1s"] else []) ++
  (if cfg.topProcessCount < 1 ∨ 50 < cfg.topProcessCount then
    ["top_process_count must be between 1 and 50"] else [])

/-- A configuration with a zero (invalid) update interval and a valid
one-minute history window. -/
def zeroIntervalCfg : MonitoringConfig :=
  { updateIntervalNs := 0, historyDurationNs := 60000000000,
    enableGPU := false, enableProcesses := true, topProcessCount := 10 }

/-- C7 fails as stated for the tick interval: constructing a collector
from a configuration whose update interval is 0 ns yields a collector
whose interval is still 0 — there is no enforced 100 ms floor at
construction; `Validate` merely reports the violation without changing
anything. -/
theorem collectorNew_interval_not_floored_cex :
    (collectorNew zeroIntervalCfg).updateIntervalNs = 0 ∧
    ¬ (100000000 ≤ (collectorNew zeroIntervalCfg).updateIntervalNs) ∧
    validateMonitoring zeroIntervalCfg = ["update_interval must be at least 100ms"] := by
  refine ⟨rfl, by decide, rfl⟩

/-- C7 amended: the history capacity *is* corrected to a safe default at
construction — a non-positive duration becomes 60 seconds, and the
resulting capacity is always positive, so collection never sees an invalid
store; the tick interval, however, is passed through `collector.New`
unchanged (the 100 ms floor exists only as a logged validation warning). -/
theorem collectorNew_capacity_corrected (cfg : MonitoringConfig) :
    0 < (collectorNew cfg).storage.capacity ∧
    (collectorNew cfg).storage.capacity =
      (if cfg.historyDurationNs.tdiv 1000000000 ≤ 0 then 60
       else (cfg.historyDurationNs.tdiv 1000000000).toNat) ∧
    (collectorNew cfg).updateIntervalNs = cfg.updateIntervalNs := by
  refine ⟨?_, ?_, rfl⟩
  · exact newRingBuffer_capacity_pos _
  · simp only [collectorNew, NewRingBuffer]
    by_cases h : cfg.historyDurationNs.tdiv 1000000000 ≤ 0
    · simp only [if_pos h]
      rfl
    · rw [if_neg h, if_neg (by omega)]

/-- The orchestrator's start/stop state: `running` is `Collector.running`;
`loops` counts how many collection-loop goroutines
(`go c.collectionLoop(ctx)`) have ever been launched. -/
structure CollectorState where
  running : Bool
  loops : ℕ
  deriving DecidableEq, Repr

/-- `Collector.Start` under its mutex: if already running, return `nil`
immediately without starting anything; otherwise set `running` and launch
exactly one collection loop. -/
def startC (s : CollectorState) : CollectorState :=
  if s.running then s else { running := true, loops := s.loops + 1 }

/-- `Collector.Stop` under its mutex: if not running, return immediately;
otherwise clear `running`, cancel the context and join the loop. -/
def stopC (s : CollectorState) : CollectorState :=
  if s.running then { s with running := false } else s

/-- C9: `start` on a running orchestrator and `stop` on a stopped one are
idempotent; `start` leaves the orchestrator Running and launches a second
collection loop only when it was stopped; `stop` leaves it Stopped and
never launches anything — the state space is exactly
\x7bStopped, Running\x7d (the Boolean `running`). -/
theorem collector_start_stop_idempotent (s : CollectorState) :
    startC (startC s) = startC s ∧
    stopC (stopC s) = stopC s ∧
    (startC s).running = true ∧
    (stopC s).running = false ∧
    (startC s).loops = (if s.running then s.loops else s.loops + 1) ∧
    (stopC s).loops = s.loops ∧
    (startC (startC s)).loops = (startC s).loops := by
  rcases s with ⟨r, l⟩
  cases r <;> simp [startC, stopC]

/-! ### One tick of `Collector.collect`, with time

`collect()` allocates one shared `metrics` struct and launches one
goroutine per metric category, each of which assigns its result into its
own field of that struct when it finishes.  The tick waits on
`select \x7b done / time.After(800ms) \x7d`, then clones the struct into the
ring buffer (`storage.Add`) and publishes the *live* struct pointer with
`atomic.StorePointer(&c.latestPtr, unsafe.Pointer(metrics))`;
`GetLatest` returns that pointer.  The model indexes field contents by
time: adapter `c` writes `result c` at `finish c` milliseconds after tick
start.  Scheduling delay between the `select` and `storage.Add` is taken
as zero: the clone is made at `storeTime`. -/

/-- The metric categories `collect()` fans out to. -/
inductive Cat
  | cpu
  | mem
  | gpu
  | disk
  | net
  | proc
  deriving DecidableEq, Repr, Fintype

/-- One tick's adapter behaviour: finish times (ms from tick start) and
results per category.  Results are abstract numbers; `0` stands for the
zero value the field holds from `models.NewMetrics()` until written. -/
structure TickEnv where
  finish : Cat → ℕ
  result : Cat → ℕ

/-- The collection ceiling: `time.After(800 * time.Millisecond)`. -/
def ceilingMs : ℕ := 800

/-- The instant `done` closes: all adapter goroutines joined
(`wg.Wait()`). -/
def doneTime (e : TickEnv) : ℕ :=
  max (max (max (e.finish Cat.cpu) (e.finish Cat.mem))
      (max (e.finish Cat.gpu) (e.finish Cat.disk)))
    (max (e.finish Cat.net) (e.finish Cat.proc))

/-- The instant the `select` returns and the tick stores and publishes:
`done` or the ceiling, whichever comes first. -/
def storeTime (e : TickEnv) : ℕ := min (doneTime e) ceilingMs

/-- The contents of the shared `metrics` struct at time `t`: fields whose
goroutine has finished hold their result, the rest still hold zero. -/
def structAt (e : TickEnv) (t : ℕ) (c : Cat) : ℕ :=
  if e.finish c ≤ t then e.result c else 0

/-- The snapshot cloned into the history store by `c.storage.Add(metrics)`:
the struct's contents at `storeTime`. -/
def storedSnapshot (e : TickEnv) (c : Cat) : ℕ := structAt e (storeTime e) c

/-- The contents, at time `t ≥ storeTime`, of the snapshot returned by
`Collector.GetLatest`: the atomic latest-pointer holds the *live*
`metrics` struct, into which late goroutines are still writing, so the
returned snapshot reads as `structAt e t`. -/
def latestAt (e : TickEnv) (t : ℕ) (c : Cat) : ℕ := structAt e t c

/-- A tick in which the CPU adapter finishes at 1000 ms — after the 800 ms
ceiling — with result 7, all other adapters at 1 ms with result 1. -/
def lateEnv : TickEnv :=
  { finish := fun c => if c = Cat.cpu then 1000 else 1
    result := fun c => if c = Cat.cpu then 7 else 1 }

/-- C1 fails as stated: the CPU adapter finishes at 1000 ms, after the
ceiling; its result is absent from the stored snapshot, but at time
1000 ms the snapshot returned by `latest()` *does* show the late result 7,
because the latest-pointer cell holds the live struct the late goroutine
wrote into. -/
theorem lateResult_visible_via_latest_cex :
    ceilingMs < lateEnv.finish Cat.cpu ∧
    storedSnapshot lateEnv Cat.cpu = 0 ∧
    storeTime lateEnv ≤ 1000 ∧
    latestAt lateEnv 1000 Cat.cpu = 7 := by
  decide

/-- C1 amended: a result that arrives after the per-tick ceiling never
becomes visible in the snapshot appended to the history store for that
tick (the clone is taken at `storeTime ≤ 800 ms`); it can, however, later
be observed through `latest()`, which exposes the live struct. -/
theorem lateResult_absent_from_store (e : TickEnv) (c : Cat)
    (h : ceilingMs < e.finish c) : storedSnapshot e c = 0 := by
  have hst : storeTime e ≤ ceilingMs := min_le_right _ _
  simp only [storedSnapshot, structAt]
  rw [if_neg (by omega)]

/-- Closed witness for `lateResult_absent_from_store` at `lateEnv`. -/
theorem lateResult_absent_from_store_witness :
    ceilingMs < lateEnv.finish Cat.cpu ∧ storedSnapshot lateEnv Cat.cpu = 0 :=
  ⟨by decide, lateResult_absent_from_store lateEnv Cat.cpu (by decide)⟩

/-- A tick in which the CPU adapter finishes at 900 ms (after the 800 ms
ceiling) and every adapter's result is 5. -/
def lateEnv2 : TickEnv :=
  { finish := fun c => if c = Cat.cpu then 900 else 1
    result := fun _ => 5 }

/-- C2 fails as stated: the tick publishes at 800 ms; the snapshot
`latest()` exposes then still shows 0 for the CPU field, but at 900 ms the
same exposed snapshot shows 5 — the reference is live and the snapshot is
mutated after publication, so `latest()` does not return an independent
deep copy or an immutable shared reference. -/
theorem latest_live_reference_cex :
    storeTime lateEnv2 = 800 ∧
    latestAt lateEnv2 800 Cat.cpu = 0 ∧
    latestAt lateEnv2 900 Cat.cpu = 5 := by
  decide

/-- C2 amended: the snapshot cloned into the history store is fixed at
`storeTime`; and whenever every adapter finishes within the ceiling, the
struct published to the latest-pointer cell never changes after
publication — every later read of `latest()` equals the stored snapshot.
Only a tick with a late adapter mutates the published struct afterwards. -/
theorem latest_immutable_when_adapters_meet_ceiling (e : TickEnv) (t : ℕ)
    (hall : ∀ c, e.finish c ≤ ceilingMs) (ht : storeTime e ≤ t) :
    latestAt e t = storedSnapshot e := by
  funext c
  simp only [latestAt, storedSnapshot, structAt]
  by_cases h : e.finish c ≤ storeTime e
  · rw [if_pos (le_trans h ht), if_pos h]
  · exfalso
    apply h
    have hd : e.finish c ≤ doneTime e := by
      cases c <;> simp [doneTime, le_max_iff, le_refl]
    exact le_min hd (hall c)

/-- A tick in which every adapter finishes at 10 ms with result 3. -/
def allEarlyEnv : TickEnv :=
  { finish := fun _ => 10, result := fun _ => 3 }

/-- Closed witness for `latest_immutable_when_adapters_meet_ceiling` at
`allEarlyEnv`, read at 900 ms. -/
theorem latest_immutable_when_adapters_meet_ceiling_witness :
    (∀ c, allEarlyEnv.finish c ≤ ceilingMs) ∧
    latestAt allEarlyEnv 900 = storedSnapshot allEarlyEnv :=
  ⟨by decide,
   latest_immutable_when_adapters_meet_ceiling allEarlyEnv 900 (by decide) (by decide)⟩

/-! ## History store, pointer level (for copy isolation)

The value-level `RingBuffer` above cannot express aliasing, so the
copy-isolation contract is proved against an explicit heap: an address is
an index into a list of `Metrics` cells, `Clone` allocates a fresh cell
holding a copy, and the store's `data` slice holds addresses.  The
operations mirror `storage/ringbuffer.go` exactly, with the pointer
indirection made explicit. -/

/-- A heap of `Metrics` structs; allocation appends a cell. -/
structure Heap where
  cells : List Metrics
  deriving DecidableEq, Repr

/-- Dereference an address. -/
def Heap.read (h : Heap) (a : ℕ) : Metrics := h.cells.getD a Metrics.zero

/-- Mutate the struct at an address (what a caller holding the pointer can
do). -/
def Heap.write (h : Heap) (a : ℕ) (m : Metrics) : Heap := ⟨h.cells.set a m⟩

/-- Allocate a fresh cell (what `Clone` does): returns its address. -/
def Heap.alloc (h : Heap) (m : Metrics) : ℕ × Heap := (h.cells.length, ⟨h.cells ++ [m]⟩)

/-- Dereference a possibly-nil pointer.  A nil slot cannot occur among the
`count` logical entries of a reachable buffer; it is modelled as the zero
snapshot. -/
def Heap.readPtr (h : Heap) (o : Option ℕ) : Metrics :=
  match o with
  | none => Metrics.zero
  | some a => h.read a

/-- `RingBuffer` with explicit pointers: `data []*models.Metrics` holds
addresses (`none` = nil). -/
structure RingBufferP where
  data : List (Option ℕ)
  head : ℕ
  count : ℕ
  capacity : ℕ
  deriving DecidableEq, Repr

/-- `NewRingBuffer` at the pointer level. -/
def NewRingBufferP (capacity : ℤ) : RingBufferP :=
  let cap : ℕ := if capacity ≤ 0 then 60 else capacity.toNat
  { data := List.replicate cap none, head := 0, count := 0, capacity := cap }

/-- `Add` at the pointer level: `rb.data[rb.head] = metrics.Clone()` — the
clone is a *fresh* cell holding a copy of the caller's struct, so the
store never retains the caller's pointer `p`. -/
def RingBufferP.Add (h : Heap) (rb : RingBufferP) (p : ℕ) : Heap × RingBufferP :=
  let alloc := h.alloc ((h.read p).clone)
  (alloc.2,
   { rb with
     data := rb.data.set rb.head (some alloc.1)
     head := (rb.head + 1) % rb.capacity
     count := if rb.count < rb.capacity then rb.count + 1 else rb.count })

/-- `GetLatest` at the pointer level: `rb.data[idx].Clone()` — the caller
receives a fresh cell, never the stored address. -/
def RingBufferP.GetLatest (h : Heap) (rb : RingBufferP) : Option ℕ × Heap :=
  if rb.count = 0 then (none, h)
  else
    match rb.data.getD ((rb.head + rb.capacity - 1) % rb.capacity) none with
    | none => (none, h)
    | some a =>
      let alloc := h.alloc ((h.read a).clone)
      (some alloc.1, alloc.2)

/-- The `for` loop of `GetLast`: clone the `k` slots starting at logical
position `i`, allocating one fresh cell per iteration. -/
def cloneLoop (rb : RingBufferP) (start : ℕ) : ℕ → ℕ → Heap → List ℕ × Heap
  | _, 0, h => ([], h)
  | i, k + 1, h =>
    let slot := rb.data.getD ((start + i) % rb.capacity) none
    let alloc := h.alloc ((h.readPtr slot).clone)
    let rest := cloneLoop rb start (i + 1) k alloc.2
    (alloc.1 :: rest.1, rest.2)

/-- `GetLast` at the pointer level. -/
def RingBufferP.GetLast (h : Heap) (rb : RingBufferP) (n : ℤ) : List ℕ × Heap :=
  if n ≤ 0 ∨ rb.count = 0 then ([], h)
  else
    let k : ℕ := min n.toNat rb.count
    let start : ℕ := (rb.head + rb.capacity - k) % rb.capacity
    cloneLoop rb start 0 k h

/-- The observable content of the store: the value behind each stored
pointer. -/
def RingBufferP.obs (h : Heap) (rb : RingBufferP) : List (Option Metrics) :=
  rb.data.map fun o => o.map h.read

/-- The addresses the store holds. -/
def RingBufferP.addrs (rb : RingBufferP) : List ℕ := rb.data.filterMap id

/-- Every stored address is a valid heap cell. -/
def RingBufferP.Valid (h : Heap) (rb : RingBufferP) : Prop :=
  ∀ a ∈ rb.addrs, a < h.cells.length

theorem Heap.read_write_ne (h : Heap) {a b : ℕ} (hab : a ≠ b) (v : Metrics) :
    (h.write a v).read b = h.read b :=
  getD_set_ne _ hab _ _

theorem Heap.read_alloc_of_lt (h : Heap) (m : Metrics) {a : ℕ}
    (ha : a < h.cells.length) : (h.alloc m).2.read a = h.read a := by
  simp only [Heap.alloc, Heap.read]
  rw [List.getD_append _ _ _ _ ha]

theorem Heap.alloc_cells_length (h : Heap) (m : Metrics) :
    (h.alloc m).2.cells.length = h.cells.length + 1 := by
  simp [Heap.alloc]

/-- Two heaps that agree on every stored address give the same observable
content. -/
theorem obs_congr {h h' : Heap} {rb : RingBufferP}
    (hr : ∀ a ∈ rb.addrs, h.read a = h'.read a) :
    RingBufferP.obs h rb = RingBufferP.obs h' rb := by
  simp only [RingBufferP.obs]
  apply List.map_congr_left
  intro o ho
  cases o with
  | none => rfl
  | some a =>
    have hmem : a ∈ rb.addrs := by
      simp only [RingBufferP.addrs, List.mem_filterMap]
      exact ⟨some a, ho, rfl⟩
    simp [hr a hmem]

theorem mem_addrs_set {rb : RingBufferP} {i x a : ℕ}
    (ha : a ∈ RingBufferP.addrs { rb with data := rb.data.set i (some x) }) :
    a = x ∨ a ∈ rb.addrs := by
  simp only [RingBufferP.addrs, List.mem_filterMap] at ha ⊢
  obtain ⟨o, ho, hoa⟩ := ha
  rcases List.mem_or_eq_of_mem_set ho with h | h
  · exact Or.inr ⟨o, h, hoa⟩
  · subst h
    simp only [id_eq, Option.some.injEq] at hoa
    exact Or.inl hoa.symm

theorem cloneLoop_cells_length (rb : RingBufferP) (start : ℕ) :
    ∀ (k i : ℕ) (h : Heap),
      (cloneLoop rb start i k h).2.cells.length = h.cells.length + k := by
  intro k
  induction k with
  | zero => intro i h; rfl
  | succ k ih =>
    intro i h
    simp only [cloneLoop]
    rw [ih]
    simp only [Heap.alloc]
    simp only [List.length_append, List.length_singleton]
    omega

theorem cloneLoop_read_preserved (rb : RingBufferP) (start : ℕ) :
    ∀ (k i : ℕ) (h : Heap) (a : ℕ), a < h.cells.length →
      (cloneLoop rb start i k h).2.read a = h.read a := by
  intro k
  induction k with
  | zero => intro i h a _; rfl
  | succ k ih =>
    intro i h a ha
    simp only [cloneLoop]
    rw [ih _ _ a (by rw [Heap.alloc_cells_length]; omega)]
    exact Heap.read_alloc_of_lt h _ ha

theorem cloneLoop_fresh (rb : RingBufferP) (start : ℕ) :
    ∀ (k i : ℕ) (h : Heap) (b : ℕ), b ∈ (cloneLoop rb start i k h).1 →
      h.cells.length ≤ b := by
  intro k
  induction k with
  | zero => intro i h b hb; simp [cloneLoop] at hb
  | succ k ih =>
    intro i h b hb
    simp only [cloneLoop, List.mem_cons] at hb
    rcases hb with hb | hb
    · subst hb
      exact le_refl _
    · have := ih (i + 1) _ b hb
      rw [Heap.alloc_cells_length] at this
      omega

/-- C8: copy isolation of the history store, at the pointer level.
(1) After `add`, mutating the caller's snapshot (which the caller still
holds through its own pointer, never retained by the store) leaves the
store's observable content unchanged — `add` stored a deep copy.
(2) Mutating the snapshot returned by `latest()` leaves the store's
observable content unchanged, and taking the copy itself does not alter
the store — reads return fresh deep copies, never internal references.
(3) Likewise for every snapshot returned by `last(n)`. -/
theorem ringBufferP_copy_isolation :
    (∀ (h : Heap) (rb : RingBufferP) (p : ℕ) (v : Metrics),
      p < h.cells.length → p ∉ rb.addrs →
      RingBufferP.obs ((RingBufferP.Add h rb p).1.write p v)
          (RingBufferP.Add h rb p).2 =
        RingBufferP.obs (RingBufferP.Add h rb p).1 (RingBufferP.Add h rb p).2) ∧
    (∀ (h : Heap) (rb : RingBufferP) (b : ℕ) (hp : Heap) (v : Metrics),
      rb.Valid h →
      RingBufferP.GetLatest h rb = (some b, hp) →
      RingBufferP.obs hp rb = RingBufferP.obs h rb ∧
      RingBufferP.obs (hp.write b v) rb = RingBufferP.obs h rb) ∧
    (∀ (h : Heap) (rb : RingBufferP) (n : ℤ) (bs : List ℕ) (hp : Heap),
      rb.Valid h →
      RingBufferP.GetLast h rb n = (bs, hp) →
      RingBufferP.obs hp rb = RingBufferP.obs h rb ∧
      ∀ b ∈ bs, ∀ v : Metrics,
        RingBufferP.obs (hp.write b v) rb = RingBufferP.obs h rb) := by
  refine ⟨?_, ?_, ?_⟩
  · intro h rb p v hplt hpfresh
    apply obs_congr
    intro a ha
    have ha2 : a = h.cells.length ∨ a ∈ rb.addrs := by
      simp only [RingBufferP.Add] at ha
      exact mem_addrs_set ha
    apply Heap.read_write_ne
    rcases ha2 with h2 | h2
    · omega
    · intro hcontra
      exact hpfresh (hcontra ▸ h2)
  · intro h rb b hp v hv heq
    simp only [RingBufferP.GetLatest] at heq
    by_cases hcnt : rb.count = 0
    · rw [if_pos hcnt] at heq
      simp at heq
    · rw [if_neg hcnt] at heq
      rcases hslot : rb.data.getD ((rb.head + rb.capacity - 1) % rb.capacity) none with
        _ | a
      · rw [hslot] at heq
        simp at heq
      · rw [hslot] at heq
        simp only [Prod.mk.injEq, Option.some.injEq, Heap.alloc] at heq
        obtain ⟨hb, hhp⟩ := heq
        subst hb
        subst hhp
        constructor
        · apply obs_congr
          intro a2 ha2
          exact Heap.read_alloc_of_lt h _ (hv a2 ha2)
        · apply obs_congr
          intro a2 ha2
          have hlt := hv a2 ha2
          rw [Heap.read_write_ne _ (by omega) v]
          exact Heap.read_alloc_of_lt h _ hlt
  · intro h rb n bs hp hv heq
    simp only [RingBufferP.GetLast] at heq
    by_cases hguard : n ≤ 0 ∨ rb.count = 0
    · rw [if_pos hguard] at heq
      injection heq with h1 h2
      subst h1
      subst h2
      refine ⟨rfl, ?_⟩
      intro b hb
      simp at hb
    · rw [if_neg hguard] at heq
      have h1 := congrArg Prod.fst heq
      have h2 := congrArg Prod.snd heq
      simp only at h1 h2
      subst h1
      subst h2
      constructor
      · exact obs_congr fun a ha =>
          cloneLoop_read_preserved rb _ _ _ h a (hv a ha)
      · intro b hb v
        have hfresh := cloneLoop_fresh rb _ _ _ h b hb
        apply obs_congr
        intro a ha
        rw [Heap.read_write_ne _ (show b ≠ a by have := hv a ha; omega) v]
        exact cloneLoop_read_preserved rb _ _ _ h a (hv a ha)

/-- A one-cell heap holding the caller's snapshot (mirrors `TestClone`'s
`original := createTestMetrics(50, 60)`). -/
def hW : Heap := ⟨[createTestMetrics 50 60]⟩

/-- Closed witness for `ringBufferP_copy_isolation`: after adding the
caller's snapshot to a capacity-2 store, mutating the caller's cell leaves
the store's content unchanged; and mutating the fresh cell returned by
`GetLatest` leaves it unchanged too. -/
theorem ringBufferP_copy_isolation_witness :
    (RingBufferP.obs ((RingBufferP.Add hW (NewRingBufferP 2) 0).1.write 0
        (createTestMetrics 99 99)) (RingBufferP.Add hW (NewRingBufferP 2) 0).2 =
      RingBufferP.obs (RingBufferP.Add hW (NewRingBufferP 2) 0).1
        (RingBufferP.Add hW (NewRingBufferP 2) 0).2) ∧
    (∃ hp : Heap,
      RingBufferP.GetLatest (RingBufferP.Add hW (NewRingBufferP 2) 0).1
          (RingBufferP.Add hW (NewRingBufferP 2) 0).2 = (some 2, hp) ∧
      RingBufferP.obs (hp.write 2 (createTestMetrics 99 99))
          (RingBufferP.Add hW (NewRingBufferP 2) 0).2 =
        RingBufferP.obs (RingBufferP.Add hW (NewRingBufferP 2) 0).1
          (RingBufferP.Add hW (NewRingBufferP 2) 0).2) := by
  constructor
  · exact ringBufferP_copy_isolation.1 hW (NewRingBufferP 2) 0
      (createTestMetrics 99 99) (by decide) (by decide)
  · refine ⟨(RingBufferP.GetLatest (RingBufferP.Add hW (NewRingBufferP 2) 0).1
      (RingBufferP.Add hW (NewRingBufferP 2) 0).2).2, ?_, ?_⟩
    · decide
    · exact (ringBufferP_copy_isolation.2.1
        (RingBufferP.Add hW (NewRingBufferP 2) 0).1
        (RingBufferP.Add hW (NewRingBufferP 2) 0).2 2 _
        (createTestMetrics 99 99) (by unfold RingBufferP.Valid; decide) (by decide)).2

end ErezMonitor
